import Mathlib

/-!
Shallow embedding of the `add_fields` transform
(`src/transforms/add_fields.rs`): configuration flattening
(`flatten_field`, `AddFields::new`, `AddFieldsConfig::build`) and the
per-event apply loop (`AddFields::transform`).

Modelling conventions:
- `IndexMap` (insertion-ordered map) is modelled as an association list
  whose `insert` updates an existing key in place (keeping its original
  position) and appends a fresh key at the end — the documented
  `IndexMap::insert` semantics.  Iteration order is list order, i.e.
  insertion order.
- The event (`Event` / `LogEvent`) is a flat map from string keys to
  typed values with point `get` and `insert`, modelled as the same kind
  of association list; `get`/`insert` are the only operations the
  transform uses, matching the event-record boundary of the spec.
- `f64` payloads are only constructed and copied, never computed with,
  so they are modelled by an abstract decidable carrier (`Float64`).
- The `chrono` datetime parser (`str::parse::<DateTime<Utc>>`) is
  third-party code outside this repository; every definition that needs
  it is parameterised over an arbitrary parser
  `parse : String → Option Timestamp`, so all theorems hold for every
  possible parser behaviour.
- The template engine (`Template::from`, `Template::render_string`)
  lives in this repository but outside the given sources.  It is
  modelled from the spec: a template is the compiled form of its source
  string; rendering substitutes `\x7b\x7bkey\x7d\x7d` placeholders by the looked-up
  event value and fails (reporting the missing keys) when a referenced
  key is absent from the event.
-/

/-- Abstract carrier for `f64` payloads.  Literal floats are copied
verbatim and never computed with, so only a decidable carrier is
needed. -/
def Float64 : Type := Rat

instance : DecidableEq Float64 := inferInstanceAs (DecidableEq Rat)

instance : ToString Float64 := inferInstanceAs (ToString Rat)

/-- Modelled from the spec: the canonical timestamp type
(`DateTime<Utc>`), abstracted to its instant. -/
structure Timestamp where
  epochNanos : Int
deriving DecidableEq, Repr

/-- Event values (`event::Value`): the constructors the transform can
produce or copy.  `Value::from(String)` yields the `bytes` case. -/
inductive Value where
  | bytes (s : String)
  | integer (i : Int)
  | float (f : Float64)
  | boolean (b : Bool)
  | timestamp (t : Timestamp)
deriving DecidableEq

/-- Nested configuration values (`toml::value::Value`).  A datetime
carries its textual representation (the result of `Datetime::to_string`).
Modelled from the spec: the table keeps its members in their original
declaration order (the configuration map preserves order), so a table is
an ordered list of keyed members. -/
inductive TomlValue where
  | string (s : String)
  | integer (i : Int)
  | float (f : Float64)
  | boolean (b : Bool)
  | datetime (s : String)
  | array (vs : List TomlValue)
  | table (m : List (String × TomlValue))

/-- Association-list lookup: first binding wins (keys are unique in all
maps built here). -/
def lookupAL {α : Type} : List (String × α) → String → Option α
  | [], _ => none
  | (k, v) :: rest, key => if k = key then some v else lookupAL rest key

/-- Association-list insert with `IndexMap::insert` semantics: an
existing key keeps its original position and gets the new value; a fresh
key is appended at the end. -/
def insertAL {α : Type} : List (String × α) → String → α → List (String × α)
  | [], key, v => [(key, v)]
  | (k, w) :: rest, key, v =>
      if k = key then (k, v) :: rest else (k, w) :: insertAL rest key v

/-- The event record (`LogEvent`): a flat map from field path to value. -/
def LogEvent : Type := List (String × Value)

/-- The transform declares `DataType::Log` input and output, so every
event it sees is a log event. -/
def Event : Type := LogEvent

instance : DecidableEq Event := inferInstanceAs (DecidableEq (List (String × Value)))

def Event.get (e : Event) (k : String) : Option Value := lookupAL e k

def Event.insert (e : Event) (k : String) (v : Value) : Event := insertAL e k v

/-- Modelled from the spec: a compiled template is the (opaque) compiled
form of its source string; we retain the source string. -/
structure Template where
  src : String
deriving DecidableEq

/-- Compilation, `Template::from(String)` — infallible. -/
def Template.fromString (s : String) : Template := ⟨s⟩

/-- One piece of a parsed template: literal text or a field reference. -/
inductive TPart where
  | lit (s : String)
  | field (key : String)
deriving DecidableEq

/-- The opening brace character. -/
def lbrace : Char := Char.ofNat 123

/-- The closing brace character. -/
def rbrace : Char := Char.ofNat 125

/-- Split a character list at the first closing brace, returning the
characters before it and those after it. -/
def splitAtRbrace : List Char → Option (List Char × List Char)
  | [] => none
  | c :: rest =>
      if c = rbrace then some ([], rest)
      else (splitAtRbrace rest).map (fun p => (c :: p.1, p.2))

/-- After an opening `\x7b\x7b`, read a non-empty brace-free key followed by
`\x7d\x7d`; return the key and the remaining characters. -/
def takeKey (cs : List Char) : Option (List Char × List Char) :=
  match splitAtRbrace cs with
  | none => none
  | some (key, after) =>
      match after with
      | [] => none
      | c2 :: after2 => if c2 = rbrace ∧ key ≠ [] then some (key, after2) else none

/-- Modelled from the spec: scan the characters of a template into literal
and field parts.  `\x7b\x7bkey\x7d\x7d` becomes a field reference; everything
else is literal text (an unterminated placeholder stays literal).  The
fuel is an upper bound on the number of scanning steps; each step
consumes at least one character. -/
def scanT : Nat → List Char → List TPart
  | 0, _ => []
  | f + 1, cs =>
      match cs with
      | [] => []
      | c1 :: c2 :: rest =>
          if c1 = lbrace ∧ c2 = lbrace then
            match takeKey rest with
            | some (key, after) => TPart.field (String.mk key) :: scanT f after
            | none => [TPart.lit (String.mk (c1 :: c2 :: rest))]
          else TPart.lit (String.mk [c1]) :: scanT f (c2 :: rest)
      | [c] => [TPart.lit (String.mk [c])]

/-- The parts of a template: its source string, scanned. -/
def Template.parts (t : Template) : List TPart :=
  scanT t.src.length t.src.toList

/-- Modelled from the spec: textual form of an event value used when a
template placeholder resolves to it. -/
def valueToStringLossy : Value → String
  | Value.bytes s => s
  | Value.integer i => toString i
  | Value.float f => toString (f : Rat)
  | Value.boolean b => if b then "true" else "false"
  | Value.timestamp t => toString t.epochNanos

/-- Render the parts against an event: the rendered string together with
the list of referenced keys missing from the event. -/
def renderParts (ev : Event) : List TPart → String × List String
  | [] => ("", [])
  | TPart.lit s :: rest =>
      let r := renderParts ev rest
      (s ++ r.1, r.2)
  | TPart.field k :: rest =>
      let r := renderParts ev rest
      match ev.get k with
      | some v => (valueToStringLossy v ++ r.1, r.2)
      | none => (r.1, k :: r.2)

/-- Modelled from the spec: `Template::render_string` — a pure function
of the template and the current event, returning the rendered string, or
a render failure listing the missing keys when any referenced key is
absent from the event. -/
def Template.render_string (t : Template) (ev : Event) : Except (List String) String :=
  let r := renderParts ev t.parts
  if r.2 = [] then Except.ok r.1 else Except.error r.2

/-- Payload of one flattened field entry (`TemplateOrValue`). -/
inductive TemplateOrValue where
  | template (t : Template)
  | value (v : Value)
deriving DecidableEq

/-- The flattened entry map: field path → payload, in insertion order. -/
def IM : Type := List (String × TemplateOrValue)

instance : DecidableEq IM := inferInstanceAs (DecidableEq (List (String × TemplateOrValue)))

/-- The array path component: `key[i]` (from `format!("\x7b\x7d[\x7b\x7d]", key, i)`). -/
def arrayKey (key : String) (i : Nat) : String :=
  key ++ "[" ++ toString i ++ "]"

/-- The table path component: `key.k` (from `format!("\x7b\x7d.\x7b\x7d", key, k)`). -/
def tableKey (key : String) (k : String) : String :=
  key ++ "." ++ k

mutual
/-- Recursively flatten one configuration value into
the entry map, accumulating the path in `key`.  A string leaf compiles
to a template; integer/float/boolean leaves become typed literal values;
a datetime leaf is parsed to a timestamp, falling back to its textual
form; arrays and tables recurse. -/
def flatten_field (parse : String → Option Timestamp) :
    String → TomlValue → IM → IM
  | key, TomlValue.string s, nf =>
      insertAL nf key (TemplateOrValue.template (Template.fromString s))
  | key, TomlValue.integer i, nf =>
      insertAL nf key (TemplateOrValue.value (Value.integer i))
  | key, TomlValue.float x, nf =>
      insertAL nf key (TemplateOrValue.value (Value.float x))
  | key, TomlValue.boolean b, nf =>
      insertAL nf key (TemplateOrValue.value (Value.boolean b))
  | key, TomlValue.datetime s, nf =>
      match parse s with
      | some ts => insertAL nf key (TemplateOrValue.value (Value.timestamp ts))
      | none => insertAL nf key (TemplateOrValue.value (Value.bytes s))
  | key, TomlValue.array vals, nf => flattenArray parse key 0 vals nf
  | key, TomlValue.table m, nf => flattenTable parse key m nf

/-- The `for (i, val) in vals.into_iter().enumerate()` loop of the
`TomlValue::Array` branch: element `i` recurses under path `key[i]`. -/
def flattenArray (parse : String → Option Timestamp) :
    String → Nat → List TomlValue → IM → IM
  | _, _, [], nf => nf
  | key, i, v :: rest, nf =>
      flattenArray parse key (i + 1) rest (flatten_field parse (arrayKey key i) v nf)

/-- The `for (table_key, value) in map` loop of the `TomlValue::Table`
branch: member `k` recurses under path `key.k`, in declaration order. -/
def flattenTable (parse : String → Option Timestamp) :
    String → List (String × TomlValue) → IM → IM
  | _, [], nf => nf
  | key, (k, v) :: rest, nf =>
      flattenTable parse key rest (flatten_field parse (tableKey key k) v nf)
end

/-- The constructed transform stage: the flattened entry map. -/
structure AddFields where
  fields : IM

/-- Construction (`AddFields::new`): flatten every configured top-level field, in
order, into the entry map. -/
def AddFields.new (parse : String → Option Timestamp)
    (fields : List (String × TomlValue)) : AddFields :=
  ⟨fields.foldl (fun nf kv => flatten_field parse kv.1 kv.2 nf) []⟩

/-- The deserialized configuration (`AddFieldsConfig`): the ordered
`fields` map. -/
structure AddFieldsConfig where
  fields : List (String × TomlValue)

/-- Builder (`AddFieldsConfig::build`): `Ok(Box::new(AddFields::new(self.fields.clone())))` —
the error type of `crate::Result` is modelled as `String`. -/
def AddFieldsConfig.build (parse : String → Option Timestamp)
    (c : AddFieldsConfig) : Except String AddFields :=
  Except.ok (AddFields.new parse c.fields)

/-- The diagnostic emitted when a template fails to render
(`warn!("Failed to render templated value at key `\x7b\x7d`, dropping.", key)`). -/
def warnMsg (key : String) : String :=
  "Failed to render templated value at key \x60" ++ key ++ "\x60, dropping."

/-- The body of the `transform` loop over the entry list, threading the
event and the emitted warnings.  A template entry renders against the
current event; on success the rendered string is inserted as a value, on
failure a warning naming the key is emitted and the entry is skipped.  A
value entry is inserted unconditionally. -/
def transformList : List (String × TemplateOrValue) → Event → List String →
    Event × List String
  | [], ev, ws => (ev, ws)
  | (key, tv) :: rest, ev, ws =>
      match tv with
      | TemplateOrValue.template t =>
          match t.render_string ev with
          | Except.ok s => transformList rest (ev.insert key (Value.bytes s)) ws
          | Except.error _ => transformList rest ev (ws ++ [warnMsg key])
      | TemplateOrValue.value v => transformList rest (ev.insert key v) ws

/-- The transform entry point (`AddFields::transform`): run the loop and return `Some(event)`. -/
def AddFields.transform (a : AddFields) (event : Event) : Option Event :=
  some (transformList a.fields event []).1

/-- The transform together with the warnings the loop emitted. -/
def AddFields.transformWithWarnings (a : AddFields) (event : Event) :
    Event × List String :=
  transformList a.fields event []

/-- Concrete parser instance: the strict parse that always fails (any
behaviour is admissible; theorems are parametric in the parser). -/
def parseNone : String → Option Timestamp := fun _ => none

/-- Concrete parser instance that accepts exactly one RFC 3339 string. -/
def parseSample : String → Option Timestamp := fun s =>
  if s = "1979-05-27T07:32:00Z" then some ⟨296638320000000000⟩ else none

theorem lookupAL_insertAL_self {α : Type} (l : List (String × α)) (k : String) (v : α) :
    lookupAL (insertAL l k v) k = some v := by
  induction l with
  | nil => simp [insertAL, lookupAL]
  | cons hd tl ih =>
      obtain ⟨k1, v1⟩ := hd
      by_cases h : k1 = k
      · simp [insertAL, h, lookupAL]
      · simp [insertAL, h, lookupAL, ih]

theorem lookupAL_insertAL_ne {α : Type} (l : List (String × α)) (k k2 : String) (v : α)
    (h : k2 ≠ k) : lookupAL (insertAL l k v) k2 = lookupAL l k2 := by
  induction l with
  | nil => simp [insertAL, lookupAL, Ne.symm h]
  | cons hd tl ih =>
      obtain ⟨k1, v1⟩ := hd
      by_cases h1 : k1 = k
      · subst h1
        simp [insertAL, lookupAL, Ne.symm h]
      · simp [insertAL, h1, lookupAL, ih]

theorem keys_insertAL {α : Type} (l : List (String × α)) (k : String) (v : α) :
    (insertAL l k v).map Prod.fst
      = if k ∈ l.map Prod.fst then l.map Prod.fst else l.map Prod.fst ++ [k] := by
  induction l with
  | nil => simp [insertAL]
  | cons hd tl ih =>
      obtain ⟨k1, v1⟩ := hd
      by_cases h : k1 = k
      · subst h
        simp [insertAL]
      · by_cases h2 : k ∈ tl.map Prod.fst
        · simp [insertAL, h, ih, h2, Ne.symm h]
        · simp [insertAL, h, ih, h2, Ne.symm h]

theorem insertAL_nodupKeys {α : Type} (l : List (String × α)) (k : String) (v : α)
    (h : (l.map Prod.fst).Nodup) : ((insertAL l k v).map Prod.fst).Nodup := by
  rw [keys_insertAL]
  by_cases hk : k ∈ l.map Prod.fst
  · simpa [hk] using h
  · rw [if_neg hk]
    refine List.Nodup.append h (List.nodup_singleton k) ?_
    intro a ha hb
    rw [List.mem_singleton] at hb
    exact hk (hb ▸ ha)

theorem flattenTable_eq_foldl (p : String → Option Timestamp) (key : String)
    (m : List (String × TomlValue)) : ∀ nf : IM,
    flattenTable p key m nf
      = m.foldl (fun acc kv => flatten_field p (tableKey key kv.1) kv.2 acc) nf := by
  induction m with
  | nil => intro nf; rfl
  | cons kv rest ih =>
      intro nf
      obtain ⟨k, v⟩ := kv
      simp [flattenTable, List.foldl, ih]

theorem flattenArray_eq_foldl (p : String → Option Timestamp) (key : String)
    (vs : List TomlValue) : ∀ (i : Nat) (nf : IM),
    flattenArray p key i vs nf
      = (vs.enumFrom i).foldl (fun acc iv => flatten_field p (arrayKey key iv.1) iv.2 acc) nf := by
  induction vs with
  | nil => intro i nf; rfl
  | cons v rest ih =>
      intro i nf
      simp [flattenArray, List.enumFrom, List.foldl, ih]

mutual

theorem flatten_field_nodupKeys (p : String → Option Timestamp) :
    ∀ (key : String) (v : TomlValue) (nf : IM),
    (nf.map Prod.fst).Nodup → ((flatten_field p key v nf).map Prod.fst).Nodup
  | key, TomlValue.string s, nf, h => insertAL_nodupKeys nf key _ h
  | key, TomlValue.integer i, nf, h => insertAL_nodupKeys nf key _ h
  | key, TomlValue.float x, nf, h => insertAL_nodupKeys nf key _ h
  | key, TomlValue.boolean b, nf, h => insertAL_nodupKeys nf key _ h
  | key, TomlValue.datetime s, nf, h => by
      show ((match p s with
        | some ts => insertAL nf key (TemplateOrValue.value (Value.timestamp ts))
        | none => insertAL nf key (TemplateOrValue.value (Value.bytes s))).map Prod.fst).Nodup
      cases p s with
      | some ts => exact insertAL_nodupKeys nf key _ h
      | none => exact insertAL_nodupKeys nf key _ h
  | key, TomlValue.array vals, nf, h => flattenArray_nodupKeys p key 0 vals nf h
  | key, TomlValue.table m, nf, h => flattenTable_nodupKeys p key m nf h

theorem flattenArray_nodupKeys (p : String → Option Timestamp) :
    ∀ (key : String) (i : Nat) (vs : List TomlValue) (nf : IM),
    (nf.map Prod.fst).Nodup → ((flattenArray p key i vs nf).map Prod.fst).Nodup
  | _, _, [], _, h => h
  | key, i, v :: rest, nf, h =>
      flattenArray_nodupKeys p key (i + 1) rest _
        (flatten_field_nodupKeys p (arrayKey key i) v nf h)

theorem flattenTable_nodupKeys (p : String → Option Timestamp) :
    ∀ (key : String) (m : List (String × TomlValue)) (nf : IM),
    (nf.map Prod.fst).Nodup → ((flattenTable p key m nf).map Prod.fst).Nodup
  | _, [], _, h => h
  | key, (k1, v1) :: rest, nf, h =>
      flattenTable_nodupKeys p key rest _
        (flatten_field_nodupKeys p (tableKey key k1) v1 nf h)

end

theorem foldl_flatten_nodupKeys (p : String → Option Timestamp)
    (fields : List (String × TomlValue)) : ∀ nf : IM, (nf.map Prod.fst).Nodup →
    ((fields.foldl (fun nf kv => flatten_field p kv.1 kv.2 nf) nf).map Prod.fst).Nodup := by
  induction fields with
  | nil => intro nf h; exact h
  | cons kv rest ih =>
      intro nf h
      exact ih _ (flatten_field_nodupKeys p kv.1 kv.2 nf h)

theorem transformList_frame (k : String) :
    ∀ (entries : List (String × TemplateOrValue)) (ev : Event) (ws : List String),
    ¬ k ∈ entries.map Prod.fst →
    Event.get (transformList entries ev ws).1 k = Event.get ev k := by
  intro entries
  induction entries with
  | nil => intro ev ws _; rfl
  | cons e rest ih =>
      intro ev ws h
      obtain ⟨key, tv⟩ := e
      rw [List.map_cons, List.mem_cons, not_or] at h
      obtain ⟨hne, hrest⟩ := h
      cases tv with
      | template t =>
          cases hr : t.render_string ev with
          | ok s =>
              rw [show transformList ((key, TemplateOrValue.template t) :: rest) ev ws
                    = transformList rest (ev.insert key (Value.bytes s)) ws by
                  simp [transformList, hr]]
              rw [ih _ _ hrest]
              exact lookupAL_insertAL_ne ev key k (Value.bytes s) hne
          | error errs =>
              rw [show transformList ((key, TemplateOrValue.template t) :: rest) ev ws
                    = transformList rest ev (ws ++ [warnMsg key]) by
                  simp [transformList, hr]]
              exact ih _ _ hrest
      | value v =>
          rw [show transformList ((key, TemplateOrValue.value v) :: rest) ev ws
                = transformList rest (ev.insert key v) ws from rfl]
          rw [ih _ _ hrest]
          exact lookupAL_insertAL_ne ev key k v hne

/-- C1: if the payload of an entry is a template whose render against the
current event fails, `transform` inserts nothing for the path of that entry
(the event is passed unchanged to the remaining entries), emits a
diagnostic warning naming the path, continues with the remaining
entries, and on every input still returns exactly one event (never an
error and never a dropped event). -/
theorem C1_render_failure_resilience
    (key : String) (t : Template) (rest : List (String × TemplateOrValue))
    (ev : Event) (ws : List String) (err : List String)
    (hfail : t.render_string ev = Except.error err) :
    transformList ((key, TemplateOrValue.template t) :: rest) ev ws
      = transformList rest ev (ws ++ [warnMsg key])
    ∧ (∃ before after, warnMsg key = before ++ (key ++ after))
    ∧ ∀ (a : AddFields) (ev2 : Event), ∃ out, a.transform ev2 = some out := by
  refine ⟨?_, ?_, ?_⟩
  · simp [transformList, hfail]
  · refine ⟨"Failed to render templated value at key \x60", "\x60, dropping.", ?_⟩
    unfold warnMsg
    rw [String.append_assoc]
  · intro a ev2
    exact ⟨(transformList a.fields ev2 []).1, rfl⟩

/-- Witness for C1 at the concrete entry list
`[bad = "\x7b\x7bmissing_field\x7d\x7d"]` and the empty event, where the render
fails with missing key `missing_field`. -/
theorem C1_render_failure_resilience_witness :
    transformList
        [("bad", TemplateOrValue.template (Template.fromString "\x7b\x7bmissing_field\x7d\x7d"))]
        [] []
      = transformList [] [] ([] ++ [warnMsg "bad"])
    ∧ (∃ before after, warnMsg "bad" = before ++ ("bad" ++ after))
    ∧ ∀ (a : AddFields) (ev2 : Event), ∃ out, a.transform ev2 = some out :=
  C1_render_failure_resilience "bad" (Template.fromString "\x7b\x7bmissing_field\x7d\x7d")
    [] [] [] ["missing_field"] rfl

/-- C2: within one call the loop evaluates entries strictly in list
order, rendering each template against the event state at the moment the
entry is reached (first conjunct: the loop equation threads the current
event into the render); consequently, for the configured entries
`a = "x"` then `b = "\x7b\x7ba\x7d\x7d-y"`, applying to any event yields
`a = "x"` and `b = "x-y"` — the second template observes the insertion
made by the first (second conjunct). -/
theorem C2_intra_call_visibility (p : String → Option Timestamp)
    (key : String) (t : Template) (rest : List (String × TemplateOrValue))
    (ev0 : Event) (ws : List String) (ev : Event) :
    (transformList ((key, TemplateOrValue.template t) :: rest) ev0 ws
      = match t.render_string ev0 with
        | Except.ok s => transformList rest (ev0.insert key (Value.bytes s)) ws
        | Except.error _ => transformList rest ev0 (ws ++ [warnMsg key]))
    ∧ ∃ out, (AddFields.new p [("a", TomlValue.string "x"),
        ("b", TomlValue.string "\x7b\x7ba\x7d\x7d-y")]).transform ev = some out
        ∧ out.get "a" = some (Value.bytes "x")
        ∧ out.get "b" = some (Value.bytes "x-y") := by
  constructor
  · rfl
  · have hrender1 : (Template.fromString "x").render_string ev = Except.ok "x" := rfl
    have hget : Event.get (Event.insert ev "a" (Value.bytes "x")) "a"
        = some (Value.bytes "x") := lookupAL_insertAL_self ev "a" (Value.bytes "x")
    have hrender2 : (Template.fromString "\x7b\x7ba\x7d\x7d-y").render_string
        (Event.insert ev "a" (Value.bytes "x")) = Except.ok "x-y" := by
      have hparts : (Template.fromString "\x7b\x7ba\x7d\x7d-y").parts
          = [TPart.field "a", TPart.lit "-", TPart.lit "y"] := rfl
      unfold Template.render_string
      rw [hparts]
      simp [renderParts, hget, valueToStringLossy]
    have hfields : (AddFields.new p [("a", TomlValue.string "x"),
        ("b", TomlValue.string "\x7b\x7ba\x7d\x7d-y")]).fields
        = [("a", TemplateOrValue.template (Template.fromString "x")),
           ("b", TemplateOrValue.template (Template.fromString "\x7b\x7ba\x7d\x7d-y"))] := rfl
    refine ⟨Event.insert (Event.insert ev "a" (Value.bytes "x")) "b" (Value.bytes "x-y"),
      ?_, ?_, ?_⟩
    · show some (transformList (AddFields.new p [("a", TomlValue.string "x"),
        ("b", TomlValue.string "\x7b\x7ba\x7d\x7d-y")]).fields ev []).1 = _
      rw [hfields]
      simp [transformList, hrender1, hrender2]
    · rw [show Event.get (Event.insert (Event.insert ev "a" (Value.bytes "x")) "b"
            (Value.bytes "x-y")) "a"
          = Event.get (Event.insert ev "a" (Value.bytes "x")) "a" from
        lookupAL_insertAL_ne _ "b" "a" _ (by decide)]
      exact hget
    · exact lookupAL_insertAL_self _ "b" _

/-- C3 counterexample: a configuration whose string leaf has malformed
(unterminated) template syntax `\x7b\x7bunclosed` builds successfully —
`AddFieldsConfig::build` returns `Ok`, so construction does not fail,
contradicting the claim that it fails fatally. -/
theorem C3_counterexample_build_ok_on_malformed :
    AddFieldsConfig.build parseNone
        ⟨[("bad", TomlValue.string "\x7b\x7bunclosed")]⟩
      = Except.ok (AddFields.new parseNone [("bad", TomlValue.string "\x7b\x7bunclosed")]) :=
  rfl

/-- C3 (amended): construction never fails.  `AddFieldsConfig::build`
returns `Ok` for every configuration and every parser behaviour: string
leaves are compiled by the infallible `Template::from`, so no
template-syntax error is surfaced at construction time (template
problems appear only at apply time, as skipped entries). -/
theorem C3_build_never_fails (p : String → Option Timestamp)
    (cfg : AddFieldsConfig) :
    ∃ t, AddFieldsConfig.build p cfg = Except.ok t :=
  ⟨AddFields.new p cfg.fields, rfl⟩

/-- C4: flattening a table node at accumulated path `key` recurses into
each member under path `key.<member-key>`, iterating the members in
their original declaration order (a left fold over the member list in
list order); in particular `a = \x7b b = "c" \x7d` flattens to the single
entry `a.b → Template("c")`. -/
theorem C4_table_declaration_order (p : String → Option Timestamp)
    (key : String) (m : List (String × TomlValue)) (nf : IM) :
    flatten_field p key (TomlValue.table m) nf
      = m.foldl (fun acc kv => flatten_field p (tableKey key kv.1) kv.2 acc) nf
    ∧ (AddFields.new p [("a", TomlValue.table [("b", TomlValue.string "c")])]).fields
      = [("a.b", TemplateOrValue.template (Template.fromString "c"))] := by
  constructor
  · show flattenTable p key m nf = _
    exact flattenTable_eq_foldl p key m nf
  · rfl

/-- C5: flattening an array node at accumulated path `key` recurses into
each element `e i` under path `key[i]` in increasing index order (a left
fold over the index-enumerated element list); in particular
`a = [1, 2, 3]` flattens to exactly `a[0] → Literal(1)`,
`a[1] → Literal(2)`, `a[2] → Literal(3)`, in that order. -/
theorem C5_array_index_order (p : String → Option Timestamp)
    (key : String) (vals : List TomlValue) (nf : IM) :
    flatten_field p key (TomlValue.array vals) nf
      = vals.enum.foldl (fun acc iv => flatten_field p (arrayKey key iv.1) iv.2 acc) nf
    ∧ (AddFields.new p [("a", TomlValue.array
        [TomlValue.integer 1, TomlValue.integer 2, TomlValue.integer 3])]).fields
      = [("a[0]", TemplateOrValue.value (Value.integer 1)),
         ("a[1]", TemplateOrValue.value (Value.integer 2)),
         ("a[2]", TemplateOrValue.value (Value.integer 3))] := by
  constructor
  · show flattenArray p key 0 vals nf = _
    exact flattenArray_eq_foldl p key vals 0 nf
  · rfl

/-- C6: flattening maps every string leaf to a Template payload (even
with no placeholders — the conversion is unconditional in `s`), and
every integer, float, or boolean leaf to a Literal payload of the same
type, never template-compiled; and applying a literal entry inserts that
very value into the event (the same typed value, never a stringified
form), as the final two conjuncts show for the apply loop. -/
theorem C6_type_preservation (p : String → Option Timestamp)
    (key : String) (s : String) (i : Int) (x : Float64) (b : Bool) (nf : IM)
    (v : Value) (rest : List (String × TemplateOrValue)) (ev : Event) (ws : List String) :
    flatten_field p key (TomlValue.string s) nf
      = insertAL nf key (TemplateOrValue.template (Template.fromString s))
    ∧ flatten_field p key (TomlValue.integer i) nf
      = insertAL nf key (TemplateOrValue.value (Value.integer i))
    ∧ flatten_field p key (TomlValue.float x) nf
      = insertAL nf key (TemplateOrValue.value (Value.float x))
    ∧ flatten_field p key (TomlValue.boolean b) nf
      = insertAL nf key (TemplateOrValue.value (Value.boolean b))
    ∧ transformList ((key, TemplateOrValue.value v) :: rest) ev ws
      = transformList rest (ev.insert key v) ws
    ∧ Event.get (ev.insert key v) key = some v :=
  ⟨rfl, rfl, rfl, rfl, rfl, lookupAL_insertAL_self ev key v⟩

/-- C7: flattening a datetime leaf attempts the strict parse of its
textual representation; on success it inserts `Literal(timestamp)`, on
failure `Literal(string)` of the textual representation, and in both
cases flattening succeeds (it is a total function — no error is
reported). -/
theorem C7_datetime_parse_fallback (p : String → Option Timestamp)
    (key : String) (s : String) (nf : IM) :
    (∀ ts, p s = some ts →
      flatten_field p key (TomlValue.datetime s) nf
        = insertAL nf key (TemplateOrValue.value (Value.timestamp ts)))
    ∧ (p s = none →
      flatten_field p key (TomlValue.datetime s) nf
        = insertAL nf key (TemplateOrValue.value (Value.bytes s))) := by
  constructor
  · intro ts hts
    show (match p s with
      | some ts => insertAL nf key (TemplateOrValue.value (Value.timestamp ts))
      | none => insertAL nf key (TemplateOrValue.value (Value.bytes s))) = _
    rw [hts]
  · intro hn
    show (match p s with
      | some ts => insertAL nf key (TemplateOrValue.value (Value.timestamp ts))
      | none => insertAL nf key (TemplateOrValue.value (Value.bytes s))) = _
    rw [hn]

/-- Witness for C7: the sample parser accepts `1979-05-27T07:32:00Z`
(yielding a timestamp literal) and rejects `not a date` (yielding a
string literal). -/
theorem C7_datetime_parse_fallback_witness :
    flatten_field parseSample "k" (TomlValue.datetime "1979-05-27T07:32:00Z") []
      = insertAL [] "k" (TemplateOrValue.value (Value.timestamp ⟨296638320000000000⟩))
    ∧ flatten_field parseSample "k" (TomlValue.datetime "not a date") []
      = insertAL [] "k" (TemplateOrValue.value (Value.bytes "not a date")) :=
  ⟨(C7_datetime_parse_fallback parseSample "k" "1979-05-27T07:32:00Z" []).1
      ⟨296638320000000000⟩ rfl,
    (C7_datetime_parse_fallback parseSample "k" "not a date" []).2 rfl⟩

/-- C8: flattening never errors on path collisions; the flattened entry
list of any configuration has each path exactly once (its key list has
no duplicates — first conjunct); the insert of the entry map gives the
later written payload for a colliding path (second conjunct), keeping the
key order of entries with distinct paths in traversal order (third
conjunct); concretely, `a.b` written by both `a = \x7b b = "first" \x7d` and
`"a.b" = "later"` ends up once, with the later payload (fourth
conjunct). -/
theorem C8_collision_last_write_wins (p : String → Option Timestamp)
    (fields : List (String × TomlValue)) (l : IM) (k : String) (tv : TemplateOrValue) :
    ((AddFields.new p fields).fields.map Prod.fst).Nodup
    ∧ lookupAL (insertAL l k tv) k = some tv
    ∧ (insertAL l k tv).map Prod.fst
      = (if k ∈ l.map Prod.fst then l.map Prod.fst else l.map Prod.fst ++ [k])
    ∧ (AddFields.new p [("a", TomlValue.table [("b", TomlValue.string "first")]),
        ("a.b", TomlValue.string "later")]).fields
      = [("a.b", TemplateOrValue.template (Template.fromString "later"))] := by
  refine ⟨?_, lookupAL_insertAL_self l k tv, keys_insertAL l k tv, rfl⟩
  exact foldl_flatten_nodupKeys p fields [] List.nodup_nil

/-- C9: `transform` only writes at the listed entry paths — every event
field whose path is not among the entry paths is present in the
output event with its original value. -/
theorem C9_unrelated_fields_preserved (a : AddFields) (ev : Event) (k : String)
    (h : ¬ k ∈ a.fields.map Prod.fst) :
    ∃ out, a.transform ev = some out ∧ out.get k = ev.get k :=
  ⟨(transformList a.fields ev []).1, rfl, transformList_frame k a.fields ev [] h⟩

/-- Witness for C9: a stage adding `some_key` leaves the unrelated field
`other` of the event untouched. -/
theorem C9_unrelated_fields_preserved_witness :
    ∃ out, (AddFields.new parseNone [("some_key", TomlValue.string "some_val")]).transform
        [("other", Value.bytes "z")] = some out
      ∧ out.get "other" = Event.get [("other", Value.bytes "z")] "other" :=
  C9_unrelated_fields_preserved
    (AddFields.new parseNone [("some_key", TomlValue.string "some_val")])
    [("other", Value.bytes "z")] "other" (by decide)

/-- C10: when the flattened entry list is empty — as for a configuration
whose fields are only empty arrays and empty tables, or an empty fields
map — `transform` returns the event completely unchanged, wrapped in
`some`. -/
theorem C10_empty_entries_identity (a : AddFields) (ev : Event)
    (p : String → Option Timestamp) (h : a.fields = []) :
    a.transform ev = some ev
    ∧ (AddFields.new p [("x", TomlValue.array []), ("y", TomlValue.table [])]).fields = [] := by
  constructor
  · show some (transformList a.fields ev []).1 = some ev
    rw [h]
    rfl
  · rfl

/-- Witness for C10: the configuration with one empty array and one
empty table flattens to no entries, and applying it to a concrete event
returns that event unchanged. -/
theorem C10_empty_entries_identity_witness :
    (AddFields.new parseNone [("x", TomlValue.array []), ("y", TomlValue.table [])]).transform
        [("m", Value.bytes "hello")] = some [("m", Value.bytes "hello")]
    ∧ (AddFields.new parseNone
        [("x", TomlValue.array []), ("y", TomlValue.table [])]).fields = [] :=
  C10_empty_entries_identity
    (AddFields.new parseNone [("x", TomlValue.array []), ("y", TomlValue.table [])])
    [("m", Value.bytes "hello")] parseNone rfl
